import Mathlib

/-!
Verification of the `barnacle_beats` fact/rule/story engine
(`src/beats/data.rs`, `src/beats/parsing.rs`, `src/beats/systems.rs`).

Rust `HashMap<String, _>` is modelled as an association list with unique keys
(lookup by key, in-place replacement on insert of an existing key);
`HashSet<Fact>` (the dirty set) is modelled as a duplicate-free list where
`insert` is a no-op on an already-present element.  A Rust `panic!` in a
store operation is modelled by the operation returning `none`.
-/

namespace Beats

/-- The canonical insertion-order-free content of a string hash set: model of
`HashSet<String>` as the list of its elements (duplicate-free by construction). -/
abbrev StringHashSet := List String

/-- `HashSet<String>::insert`: adds the element if absent; returns-true/false of
the source is reflected by whether the list changes. -/
def shsInsert (l : StringHashSet) (s : String) : StringHashSet :=
  if s ∈ l then l else l ++ [s]

/-- Build a `StringHashSet` from a sequence of insertions. -/
def shsOfList (xs : List String) : StringHashSet :=
  xs.foldl shsInsert []

/-- `HashSet` equality (derived `PartialEq` of `StringHashSet`): extensional set
equality of the contents, independent of insertion order. -/
def shsEq (a b : StringHashSet) : Bool :=
  a.all (fun s => s ∈ b) && b.all (fun s => s ∈ a)

/-- The `Hash` impl of `StringHashSet` sorts the elements and feeds them to the
hasher in sorted order; the hash value is a function of exactly this sequence,
so we take the sorted sequence itself as the model of the hash. -/
def shsHashSeq (a : StringHashSet) : List String :=
  a.insertionSort (fun x y => x ≤ y)

/-- `Fact` enum of `data.rs`: a named, typed value. -/
inductive Fact where
  | int (name : String) (value : Int)
  | string (name : String) (value : String)
  | bool (name : String) (value : Bool)
  | stringList (name : String) (value : StringHashSet)
  deriving DecidableEq

/-- The variant tag of a `Fact`. -/
inductive FactKind where
  | int
  | string
  | bool
  | stringList
  deriving DecidableEq

def Fact.kind : Fact → FactKind
  | .int _ _ => .int
  | .string _ _ => .string
  | .bool _ _ => .bool
  | .stringList _ _ => .stringList

/-- `HashMap<String, Fact>` as an association list with unique keys. -/
abbrev FactMap := List (String × Fact)

def lookupFact : FactMap → String → Option Fact
  | [], _ => none
  | (k, f) :: rest, key => if k = key then some f else lookupFact rest key

/-- `HashMap::insert` / in-place `*fact = ...`: replace the value at the key if
present, otherwise append the new entry. -/
def insertFact : FactMap → String → Fact → FactMap
  | [], key, f => [(key, f)]
  | (k, g) :: rest, key, f =>
    if k = key then (key, f) :: rest else (k, g) :: insertFact rest key f

/-- `HashSet<Fact>::insert` on the dirty set: no-op when already present. -/
def dirtyInsert (s : List Fact) (f : Fact) : List Fact :=
  if f ∈ s then s else s ++ [f]

/-- `CoolFactStore` of `data.rs`: current facts plus the dirty set of updated facts. -/
structure CoolFactStore where
  facts : FactMap
  updated_facts : List Fact
  deriving DecidableEq

namespace CoolFactStore

def new : CoolFactStore := ⟨[], []⟩

/-- `CoolFactStore::store_int` (`data.rs` 67-82).  `none` models the
`panic!("Fact with key {} is not an integer", key)` branch. -/
def store_int (st : CoolFactStore) (key : String) (value : Int) : Option CoolFactStore :=
  match lookupFact st.facts key with
  | some (Fact.int _ current) =>
    if current ≠ value then
      some { facts := insertFact st.facts key (Fact.int key value),
             updated_facts := dirtyInsert st.updated_facts (Fact.int key value) }
    else
      some st
  | some _ => none
  | none =>
    some { facts := insertFact st.facts key (Fact.int key value),
           updated_facts := dirtyInsert st.updated_facts (Fact.int key value) }

/-- `CoolFactStore::store_string` (`data.rs` 94-110). -/
def store_string (st : CoolFactStore) (key : String) (value : String) : Option CoolFactStore :=
  match lookupFact st.facts key with
  | some (Fact.string _ current) =>
    if current ≠ value then
      some { facts := insertFact st.facts key (Fact.string key value),
             updated_facts := dirtyInsert st.updated_facts (Fact.string key value) }
    else
      some st
  | some _ => none
  | none =>
    some { facts := insertFact st.facts key (Fact.string key value),
           updated_facts := dirtyInsert st.updated_facts (Fact.string key value) }

/-- `CoolFactStore::store_bool` (`data.rs` 112-128). -/
def store_bool (st : CoolFactStore) (key : String) (value : Bool) : Option CoolFactStore :=
  match lookupFact st.facts key with
  | some (Fact.bool _ current) =>
    if current ≠ value then
      some { facts := insertFact st.facts key (Fact.bool key value),
             updated_facts := dirtyInsert st.updated_facts (Fact.bool key value) }
    else
      some st
  | some _ => none
  | none =>
    some { facts := insertFact st.facts key (Fact.bool key value),
           updated_facts := dirtyInsert st.updated_facts (Fact.bool key value) }

/-- `CoolFactStore::add_to_list` (`data.rs` 130-145).  Note that on an existing
fact of a different variant the `if let` silently falls through: the store is
returned unchanged rather than aborting.  The in-place mutation keeps the old
fact's stored name. -/
def add_to_list (st : CoolFactStore) (key : String) (value : String) : CoolFactStore :=
  match lookupFact st.facts key with
  | some (Fact.stringList n l) =>
    if value ∈ l then st
    else
      { facts := insertFact st.facts key (Fact.stringList n (shsInsert l value)),
        updated_facts := dirtyInsert st.updated_facts (Fact.stringList n (shsInsert l value)) }
  | some _ => st
  | none =>
    { facts := insertFact st.facts key (Fact.stringList key (shsInsert [] value)),
      updated_facts := dirtyInsert st.updated_facts (Fact.stringList key (shsInsert [] value)) }

end CoolFactStore

/-- `Condition` enum of `data.rs`. -/
inductive Condition where
  | intEquals (fact_name : String) (expected_value : Int)
  | intMoreThan (fact_name : String) (expected_value : Int)
  | intLessThan (fact_name : String) (expected_value : Int)
  | stringEquals (fact_name : String) (expected_value : String)
  | boolEquals (fact_name : String) (expected_value : Bool)
  | listContains (fact_name : String) (expected_value : String)
  deriving DecidableEq

/-- The fact name a condition looks up. -/
def Condition.factName : Condition → String
  | .intEquals n _ => n
  | .intMoreThan n _ => n
  | .intLessThan n _ => n
  | .stringEquals n _ => n
  | .boolEquals n _ => n
  | .listContains n _ => n

/-- The fact variant a condition expects. -/
def Condition.expectedKind : Condition → FactKind
  | .intEquals _ _ => .int
  | .intMoreThan _ _ => .int
  | .intLessThan _ _ => .int
  | .stringEquals _ _ => .string
  | .boolEquals _ _ => .bool
  | .listContains _ _ => .stringList

/-- `Condition::evaluate` (`data.rs` 219-273): absent or wrong-variant facts
fall through to `false`. -/
def Condition.evaluate (c : Condition) (facts : FactMap) : Bool :=
  match c with
  | .intEquals n v =>
    match lookupFact facts n with
    | some (Fact.int _ value) => value = v
    | _ => false
  | .stringEquals n v =>
    match lookupFact facts n with
    | some (Fact.string _ value) => value = v
    | _ => false
  | .boolEquals n v =>
    match lookupFact facts n with
    | some (Fact.bool _ value) => value = v
    | _ => false
  | .intMoreThan n v =>
    match lookupFact facts n with
    | some (Fact.int _ value) => v < value
    | _ => false
  | .intLessThan n v =>
    match lookupFact facts n with
    | some (Fact.int _ value) => value < v
    | _ => false
  | .listContains n v =>
    match lookupFact facts n with
    | some (Fact.stringList _ value) => v ∈ value
    | _ => false

/-- `Rule` of `data.rs`: a name plus a conjunction of conditions. -/
structure Rule where
  name : String
  conditions : List Condition
  deriving DecidableEq

def Rule.new (name : String) (conditions : List Condition) : Rule :=
  ⟨name, conditions⟩

/-- `Rule::evaluate`: all conditions hold. -/
def Rule.evaluate (r : Rule) (facts : FactMap) : Bool :=
  r.conditions.all (fun c => c.evaluate facts)

/-- `StoryBeat` of `data.rs` (the revision under src/, without effects). -/
structure StoryBeat where
  name : String
  rules : List Rule
  finished : Bool
  deriving DecidableEq

def StoryBeat.new (name : String) (rules : List Rule) : StoryBeat :=
  ⟨name, rules, false⟩

/-- `StoryBeat::evaluate` (`data.rs` 311-313): sets `finished` to the current
conjunction of all rules (the Rust method mutates `self`; we return the new beat). -/
def StoryBeat.evaluate (b : StoryBeat) (facts : FactMap) : StoryBeat :=
  { b with finished := b.rules.all (fun r => r.evaluate facts) }

/-- `Story` of `data.rs`. -/
structure Story where
  name : String
  beats : List StoryBeat
  active_beat_index : Nat
  deriving DecidableEq

def Story.new (name : String) (beats : List StoryBeat) : Story :=
  ⟨name, beats, 0⟩

/-- `Story::evaluate_active_beat` (`data.rs` 333-341): evaluate the active beat
in place; if it finished, advance the index by one; no-op at or past the end. -/
def Story.evaluate_active_beat (s : Story) (facts : FactMap) : Story :=
  if h : s.active_beat_index < s.beats.length then
    let beat := (s.beats.get ⟨s.active_beat_index, h⟩).evaluate facts
    let beats := s.beats.set s.active_beat_index beat
    if beat.finished then
      { s with beats := beats, active_beat_index := s.active_beat_index + 1 }
    else
      { s with beats := beats }
  else s

/-- `Story::is_finished` (`data.rs` 343-345). -/
def Story.is_finished (s : Story) : Bool :=
  s.beats.length ≤ s.active_beat_index

/-- A sequence of `evaluate_active_beat` calls, one per snapshot in the list. -/
def Story.run : Story → List FactMap → Story
  | s, [] => s
  | s, facts :: rest => Story.run (s.evaluate_active_beat facts) rest

/-- `HashMap<String, bool>` of rule states as an association list. -/
abbrev StateMap := List (String × Bool)

def lookupState : StateMap → String → Option Bool
  | [], _ => none
  | (k, b) :: rest, key => if k = key then some b else lookupState rest key

def insertState : StateMap → String → Bool → StateMap
  | [], key, b => [(key, b)]
  | (k, c) :: rest, key, b =>
    if k = key then (key, b) :: rest else (k, c) :: insertState rest key b

/-- `RuleEngine` of `data.rs`: owned rules plus the last observed state per rule. -/
structure RuleEngine where
  rules : List (String × Rule)
  rule_states : StateMap
  deriving DecidableEq

/-- `HashMap<String, Rule>::insert`. -/
def insertRule : List (String × Rule) → String → Rule → List (String × Rule)
  | [], key, v => [(key, v)]
  | (k, w) :: rest, key, v =>
    if k = key then (key, v) :: rest else (k, w) :: insertRule rest key v

/-- `RuleEngine::add_rule`: inserts the rule and resets its tracked state to `false`. -/
def RuleEngine.add_rule (e : RuleEngine) (r : Rule) : RuleEngine :=
  { rules := insertRule e.rules r.name r,
    rule_states := insertState e.rule_states r.name false }

/-- The loop body of `RuleEngine::evaluate_rules` (`data.rs` 596-606): for each
owned rule, compare the fresh evaluation with the stored state; on a difference,
negate the stored state and record the rule name.  `none` models the
`.unwrap()` panicking when a rule has no tracked state. -/
def evaluateRulesAux (facts : FactMap) :
    List (String × Rule) → StateMap → Option (StateMap × List String)
  | [], st => some (st, [])
  | (n, r) :: rest, st =>
    match lookupState st n with
    | none => none
    | some prev =>
      if prev ≠ r.evaluate facts then
        match evaluateRulesAux facts rest (insertState st n (!prev)) with
        | none => none
        | some (st1, upd) => some (st1, n :: upd)
      else
        evaluateRulesAux facts rest st

/-- `RuleEngine::evaluate_rules`: returns the updated engine and the names of
the rules whose state flipped. -/
def RuleEngine.evaluate_rules (e : RuleEngine) (facts : FactMap) :
    Option (RuleEngine × List String) :=
  match evaluateRulesAux facts e.rules e.rule_states with
  | none => none
  | some (st, upd) => some ({ e with rule_states := st }, upd)

/-- Modelled from the spec: the `Effect` type of the final `data.rs` revision,
which is referenced by `parsing.rs`, `builders.rs` and `systems.rs` but is
missing from src/.  Per §3 of the spec it has "currently one variant,
SetFact(Value)". -/
inductive Effect where
  | setFact (fact : Fact)
  deriving DecidableEq

/-- Modelled from the spec: the final revision of `Story::evaluate_active_beat`
(the one invoked by `story_evaluator` in `systems.rs` and matched against
`None`/`Some`, missing from src/).  Per §4.4 it performs the same transition as
the src/ revision and additionally reports the beat that just finished (if any)
to the caller. -/
def Story.evaluate_active_beat_report (s : Story) (facts : FactMap) :
    Story × Option StoryBeat :=
  if h : s.active_beat_index < s.beats.length then
    let beat := (s.beats.get ⟨s.active_beat_index, h⟩).evaluate facts
    let beats := s.beats.set s.active_beat_index beat
    if beat.finished then
      ({ s with beats := beats, active_beat_index := s.active_beat_index + 1 }, some beat)
    else
      ({ s with beats := beats }, none)
  else (s, none)

namespace SpecModel

/-- Modelled from the spec: the final revision of `StoryBeat` (the shape built
by `parsing.rs` and `builders.rs`, missing from src/), which additionally
carries an ordered list of effects (§3). -/
structure StoryBeat where
  name : String
  rules : List Rule
  effects : List Effect
  finished : Bool
  deriving DecidableEq

/-- Modelled from the spec: the final revision of `Story`, whose beats carry
effects (§3). -/
structure Story where
  name : String
  beats : List StoryBeat
  active_beat_index : Nat
  deriving DecidableEq

end SpecModel

/-- Digit-string to number, for the Rust `str::parse` calls. -/
def digitsToNat (cs : List Char) : Option Nat :=
  if cs.isEmpty || !cs.all Char.isDigit then none
  else some (cs.foldl (fun a c => a * 10 + (c.toNat - 48)) 0)

/-- `str::parse::<i32>`: optional sign followed by digits. -/
def toIntChars (cs : List Char) : Option Int :=
  match cs with
  | '-' :: rest => (digitsToNat rest).map (fun n => -(n : Int))
  | _ => (digitsToNat cs).map (fun n => (n : Int))

/-!
Shallow embedding of the nom parsers of `parsing.rs`.  A parser is a function
from the input character list to `none` (nom `Err`) or the remaining input
paired with the produced value.  The `.unwrap()` calls on literal parsing and
the `unimplemented!()` arm of `parse_effect` abort the process in the source;
both are modelled as `none`.
-/

namespace Nom

abbrev Input := List Char

abbrev P (α : Type) := Input → Option (Input × α)

/-- nom `tag`: match an exact literal. -/
def tag (t : List Char) (input : Input) : Option (Input × List Char) :=
  if t.isPrefixOf input then some (input.drop t.length, t) else none

def isSpaceTab (c : Char) : Bool :=
  c = ' ' || c = '\t'

/-- nom `space0`: zero or more spaces/tabs; always succeeds. -/
def space0 (input : Input) : Option (Input × List Char) :=
  some (input.dropWhile isSpaceTab, input.takeWhile isSpaceTab)

/-- nom `space1`: one or more spaces/tabs. -/
def space1 (input : Input) : Option (Input × List Char) :=
  match input with
  | [] => none
  | c :: _ =>
    if isSpaceTab c then some (input.dropWhile isSpaceTab, input.takeWhile isSpaceTab)
    else none

/-- nom `take_while`: always succeeds, possibly consuming nothing. -/
def takeWhileP (p : Char → Bool) (input : Input) : Option (Input × List Char) :=
  some (input.dropWhile p, input.takeWhile p)

/-- nom `alphanumeric1`. -/
def alphanumeric1 (input : Input) : Option (Input × List Char) :=
  match input with
  | [] => none
  | c :: _ =>
    if c.isAlphanum then some (input.dropWhile Char.isAlphanum, input.takeWhile Char.isAlphanum)
    else none

/-- nom `preceded`. -/
def preceded (p : P α) (q : P β) : P β := fun input =>
  match p input with
  | none => none
  | some (rest, _) => q rest

/-- Iteration core of nom `many1`/`many0`: stops when the inner parser fails,
errors when the inner parser succeeds without consuming (nom's infinite-loop
protection).  The fuel argument dominates the number of iterations; each
successful iteration consumes at least one character, so `input.length + 1`
fuel is never exhausted. -/
def manyAux (p : P α) : Nat → P (List α)
  | 0 => fun _ => none
  | fuel + 1 => fun input =>
    match p input with
    | none => some (input, [])
    | some (rest, a) =>
      if rest.length = input.length then none
      else
        match manyAux p fuel rest with
        | none => none
        | some (rest1, as) => some (rest1, a :: as)

/-- nom `many1`: at least one iteration. -/
def many1 (p : P α) : P (List α) := fun input =>
  match manyAux p (input.length + 1) input with
  | none => none
  | some (_, []) => none
  | some (rest, as) => some (rest, as)

def isWordChar (c : Char) : Bool :=
  c.isAlphanum || c = '_'

/-- `parse_effect` (`parsing.rs` 97-118).  Note the source's destructuring slip:
`fact_name` is bound to the output of `space1` (whitespace) and `fact_value` to
the `take_while` token; we reproduce it faithfully.  The `.unwrap()` on the
`Int`/`Bool` literal parse and the `unimplemented!()` arm are modelled as `none`. -/
def parse_effect : P Effect := fun input =>
  match tag ("- Effect: SetFact ".data) input with
  | none => none
  | some (r1, _) =>
    match alphanumeric1 r1 with
    | none => none
    | some (r2, ft) =>
      match space1 r2 with
      | none => none
      | some (r3, fn) =>
        match takeWhileP isWordChar r3 with
        | none => none
        | some (r4, fv) =>
          let fact_name := String.mk fn
          if String.mk ft = "Int" then
            match toIntChars fv with
            | some i => some (r4, Effect.setFact (Fact.int fact_name i))
            | none => none
          else if String.mk ft = "String" then
            some (r4, Effect.setFact (Fact.string fact_name (String.mk fv)))
          else if String.mk ft = "Bool" then
            if String.mk fv = "true" then some (r4, Effect.setFact (Fact.bool fact_name true))
            else if String.mk fv = "false" then some (r4, Effect.setFact (Fact.bool fact_name false))
            else none
          else if String.mk ft = "StringList" then
            some (r4, Effect.setFact (Fact.stringList fact_name (shsInsert [] (String.mk fv))))
          else none

/-- The local closure shadowing `parse_rule` inside `parse_story_beat`
(`parsing.rs` 143): `|input| Ok(("", Rule::new("rule_name".to_string(), vec![])))`,
a placeholder that succeeds on any input and consumes all of it. -/
def placeholderRule : P Rule := fun _ =>
  some ([], Rule.new "rule_name" [])

/-- `parse_story_beat` (`parsing.rs` 142-163). -/
def parse_story_beat : P SpecModel.StoryBeat := fun input =>
  match tag ("## StoryBeat: ".data) input with
  | none => none
  | some (r1, _) =>
    match space0 r1 with
    | none => none
    | some (r2, _) =>
      match takeWhileP isWordChar r2 with
      | none => none
      | some (r3, nm) =>
        match space0 r3 with
        | none => none
        | some (r4, _) =>
          match many1 (preceded space1 placeholderRule) r4 with
          | none => none
          | some (r5, rules) =>
            match many1 (preceded space1 parse_effect) r5 with
            | none => none
            | some (r6, effects) =>
              some (r6, { name := String.mk nm, rules := rules,
                          effects := effects, finished := false })

/-- `parse_story` (`parsing.rs` 165-182). -/
def parse_story : P SpecModel.Story := fun input =>
  match tag ("# Story: ".data) input with
  | none => none
  | some (r1, _) =>
    match space0 r1 with
    | none => none
    | some (r2, _) =>
      match takeWhileP isWordChar r2 with
      | none => none
      | some (r3, nm) =>
        match space0 r3 with
        | none => none
        | some (r4, _) =>
          match many1 (preceded space1 parse_story_beat) r4 with
          | none => none
          | some (r5, beats) =>
            some (r5, { name := String.mk nm, beats := beats, active_beat_index := 0 })

end Nom

/-!
The spec's §4.5 definition-parser grammar (`"# Story: "` / `"## StoryBeat: "` /
`"### Rule: "` headers, call-form or infix conditions, `"- Set <Kind> <name>
to <value>"` effects) belongs to the final parser revision of this repository,
which is not under src/ (src/ holds only the earlier nom revision embedded
above).  The definitions in this namespace are modelled from the spec's words.
-/

namespace SpecModel

/-- Modelled from the spec: whitespace trimming for the line-oriented,
whitespace-tolerant grammar of §4.5. -/
def trimChars (cs : List Char) : List Char :=
  ((cs.dropWhile (fun c => c = ' ' || c = '\t' || c = '\r')).reverse.dropWhile
    (fun c => c = ' ' || c = '\t' || c = '\r')).reverse

/-- Modelled from the spec: split the definition text into lines (§4.5 is
line-oriented). -/
def splitLines : List Char → List (List Char)
  | [] => [[]]
  | c :: rest =>
    let r := splitLines rest
    if c = '\n' then [] :: r
    else
      match r with
      | [] => [[c]]
      | l :: ls => (c :: l) :: ls

/-- Modelled from the spec: split a `StringList` value on commas (§4.5: "a
`StringList` value is a comma-separated list"). -/
def splitCommas : List Char → List (List Char)
  | [] => [[]]
  | c :: rest =>
    let r := splitCommas rest
    if c = ',' then [] :: r
    else
      match r with
      | [] => [[c]]
      | l :: ls => (c :: l) :: ls

/-- Modelled from the spec: a header line `<keyword><name>` with the exact
case-sensitive keyword including its trailing space (§6). -/
def headerName (kw : List Char) (line : List Char) : Option String :=
  let t := trimChars line
  if kw.isPrefixOf t then some (String.mk (trimChars (t.drop kw.length))) else none

/-- Modelled from the spec: `true`/`false` boolean literals. -/
def boolLit (v : List Char) : Option Bool :=
  if v = "true".data then some true
  else if v = "false".data then some false
  else none

/-- Modelled from the spec: strip one layer of surrounding double quotes from a
string value, when present. -/
def stripQ (v : List Char) : List Char :=
  match v with
  | '"' :: rest => if rest.getLast? = some '"' then rest.dropLast else v
  | _ => v

/-- Modelled from the spec: the argument list `<fact_name>, <value>` of a
call-form condition. -/
def splitArg (inner : List Char) : Option (List Char × List Char) :=
  let nm := inner.takeWhile (fun c => c ≠ ',')
  match inner.drop nm.length with
  | ',' :: rest => some (trimChars nm, trimChars rest)
  | _ => none

/-- Modelled from the spec: the call form `<Kind>(<fact_name>, <value>)` of a
condition (§4.5). -/
def callArgs (kind : List Char) (t : List Char) : Option (List Char × List Char) :=
  if (kind ++ ['(']).isPrefixOf t ∧ t.getLast? = some ')' then
    splitArg ((t.drop (kind.length + 1)).dropLast)
  else none

/-- Modelled from the spec: the infix condition form `<fact_name> <op> <value>`
with `op ∈ \x7b==, >, <, contains, equals\x7d`; for `==` the value is tried as
integer, then boolean, then falls back to string (§4.5). -/
def infixCond (t : List Char) : Option Condition :=
  let nm := t.takeWhile (fun c => c ≠ ' ')
  let r1 := (t.drop nm.length).dropWhile (fun c => c = ' ')
  let op := r1.takeWhile (fun c => c ≠ ' ')
  let v := (r1.drop op.length).dropWhile (fun c => c = ' ')
  if nm.isEmpty || op.isEmpty || v.isEmpty then none
  else if op = "==".data then
    match toIntChars v with
    | some i => some (.intEquals (String.mk nm) i)
    | none =>
      match boolLit v with
      | some b => some (.boolEquals (String.mk nm) b)
      | none => some (.stringEquals (String.mk nm) (String.mk (stripQ v)))
  else if op = ['>'] then (toIntChars v).map (fun i => .intMoreThan (String.mk nm) i)
  else if op = ['<'] then (toIntChars v).map (fun i => .intLessThan (String.mk nm) i)
  else if op = "contains".data then some (.listContains (String.mk nm) (String.mk (stripQ v)))
  else if op = "equals".data then some (.stringEquals (String.mk nm) (String.mk (stripQ v)))
  else none

/-- Modelled from the spec: one condition line, call form first, then the infix
form; an optional `"- Condition: "` tag from the alternate grammar is stripped.
A malformed numeric/boolean literal inside a matched condition is a fatal parse
error (§4.5), modelled as `none`. -/
def parseCondChars (line : List Char) : Option Condition :=
  let t0 := trimChars line
  let t := if ("- Condition: ".data).isPrefixOf t0 then t0.drop 13 else t0
  match callArgs ("IntEquals".data) t with
  | some (n, v) => (toIntChars v).map (fun i => .intEquals (String.mk n) i)
  | none =>
  match callArgs ("IntMoreThan".data) t with
  | some (n, v) => (toIntChars v).map (fun i => .intMoreThan (String.mk n) i)
  | none =>
  match callArgs ("IntLessThan".data) t with
  | some (n, v) => (toIntChars v).map (fun i => .intLessThan (String.mk n) i)
  | none =>
  match callArgs ("StringEquals".data) t with
  | some (n, v) => some (.stringEquals (String.mk n) (String.mk (stripQ v)))
  | none =>
  match callArgs ("BoolEquals".data) t with
  | some (n, v) => (boolLit v).map (fun b => .boolEquals (String.mk n) b)
  | none =>
  match callArgs ("ListContains".data) t with
  | some (n, v) => some (.listContains (String.mk n) (String.mk (stripQ v)))
  | none => infixCond t

/-- Modelled from the spec: one effect line `"- Set " <Kind> " " <fact_name>
" to " <value>` with `Kind ∈ \x7bInt, String, Bool, StringList\x7d` (§4.5). -/
def parseEffectChars (line : List Char) : Option Effect :=
  let t := trimChars line
  if ("- Set ".data).isPrefixOf t then
    let r0 := t.drop 6
    let kind := r0.takeWhile (fun c => c ≠ ' ')
    let r1 := (r0.drop kind.length).dropWhile (fun c => c = ' ')
    let nm := r1.takeWhile (fun c => c ≠ ' ')
    let r2 := (r1.drop nm.length).dropWhile (fun c => c = ' ')
    if ("to ".data).isPrefixOf r2 ∧ ¬nm.isEmpty then
      let v := trimChars (r2.drop 3)
      if v.isEmpty then none
      else if kind = "Int".data then
        (toIntChars v).map (fun i => .setFact (Fact.int (String.mk nm) i))
      else if kind = "String".data then
        some (.setFact (Fact.string (String.mk nm) (String.mk v)))
      else if kind = "Bool".data then
        (boolLit v).map (fun b => .setFact (Fact.bool (String.mk nm) b))
      else if kind = "StringList".data then
        some (.setFact (Fact.stringList (String.mk nm)
          (shsOfList ((splitCommas v).map (fun e => String.mk (trimChars e))))))
      else none
    else none
  else none

/-- Modelled from the spec: one rule block, `"### Rule: " <name>` (or the
alternate `"- Rule: " <name>`) followed by one or more condition lines (§4.5). -/
def parseRuleBlock : List (List Char) → Option (Rule × List (List Char))
  | [] => none
  | line :: rest =>
    let nm :=
      match headerName ("### Rule: ".data) line with
      | some n => some n
      | none => headerName ("- Rule: ".data) line
    match nm with
    | none => none
    | some n =>
      let condLines := rest.takeWhile (fun l => (parseCondChars l).isSome)
      if condLines.isEmpty then none
      else some (⟨n, condLines.filterMap parseCondChars⟩, rest.drop condLines.length)

/-- Modelled from the spec: one or more rule blocks. -/
def parseRulesAux : Nat → List (List Char) → List Rule × List (List Char)
  | 0, ls => ([], ls)
  | fuel + 1, ls =>
    match parseRuleBlock ls with
    | none => ([], ls)
    | some (r, rest) =>
      let (rs, rest1) := parseRulesAux fuel rest
      (r :: rs, rest1)

/-- Modelled from the spec: one story-beat block, `"## StoryBeat: " <name>`
followed by one or more rules then one or more effects (§4.5). -/
def parseBeatBlock (ls : List (List Char)) : Option (StoryBeat × List (List Char)) :=
  match ls with
  | [] => none
  | line :: rest =>
    match headerName ("## StoryBeat: ".data) line with
    | none => none
    | some nm =>
      match parseRulesAux rest.length rest with
      | ([], _) => none
      | (rules, rest1) =>
        let effLines := rest1.takeWhile (fun l => (parseEffectChars l).isSome)
        if effLines.isEmpty then none
        else some (⟨nm, rules, effLines.filterMap parseEffectChars, false⟩,
                   rest1.drop effLines.length)

/-- Modelled from the spec: one or more story-beat blocks. -/
def parseBeatsAux : Nat → List (List Char) → List StoryBeat × List (List Char)
  | 0, ls => ([], ls)
  | fuel + 1, ls =>
    match parseBeatBlock ls with
    | none => ([], ls)
    | some (b, rest) =>
      let (bs, rest1) := parseBeatsAux fuel rest
      (b :: bs, rest1)

/-- Modelled from the spec: `parse_story` of the final parser revision missing
from src/ (§4.5, §6): `"# Story: " <name>` followed by one or more story beats;
an unparseable fragment fails the whole parse, so no trailing unparsed lines
are allowed. -/
def parse_story (input : String) : Option Story :=
  match (splitLines input.data).filter (fun l => ¬(trimChars l).isEmpty) with
  | [] => none
  | line :: rest =>
    match headerName ("# Story: ".data) line with
    | none => none
    | some nm =>
      match parseBeatsAux rest.length rest with
      | ([], _) => none
      | (beats, rest1) =>
        if rest1.isEmpty then some ⟨nm, beats, 0⟩ else none

end SpecModel

example :
    CoolFactStore.store_int CoolFactStore.new "x" 3 =
      some ⟨[("x", Fact.int "x" 3)], [Fact.int "x" 3]⟩ := by decide

example :
    CoolFactStore.store_string ⟨[("x", Fact.int "x" 3)], []⟩ "x" "y" = none := by decide

example :
    Condition.evaluate (.intMoreThan "score" 3) [("score", Fact.int "score" 4)] = true := by
  decide

example :
    (Story.new "s" [StoryBeat.new "b" [Rule.new "r" [.intEquals "x" 1]]]).evaluate_active_beat
      [("x", Fact.int "x" 1)] =
      ⟨"s", [⟨"b", [⟨"r", [.intEquals "x" 1]⟩], true⟩], 1⟩ := by decide

/-! Lookup/insert lemmas for the association-list maps. -/

theorem lookupFact_insertFact_self (m : FactMap) (k : String) (f : Fact) :
    lookupFact (insertFact m k f) k = some f := by
  induction m with
  | nil => simp [insertFact, lookupFact]
  | cons p rest ih =>
    obtain ⟨k1, f1⟩ := p
    by_cases h : k1 = k <;> simp [insertFact, lookupFact, h, ih]

theorem lookupState_insertState_self (m : StateMap) (k : String) (b : Bool) :
    lookupState (insertState m k b) k = some b := by
  induction m with
  | nil => simp [insertState, lookupState]
  | cons p rest ih =>
    obtain ⟨k1, b1⟩ := p
    by_cases h : k1 = k <;> simp [insertState, lookupState, h, ih]

theorem lookupState_insertState_ne (m : StateMap) (k k1 : String) (b : Bool)
    (h : k1 ≠ k) : lookupState (insertState m k b) k1 = lookupState m k1 := by
  induction m with
  | nil =>
    simp only [insertState, lookupState]
    rw [if_neg (fun hh => h hh.symm)]
  | cons p rest ih =>
    obtain ⟨k2, b2⟩ := p
    by_cases h2 : k2 = k
    · subst h2
      simp only [insertState, if_pos rfl, lookupState]
      rw [if_neg (fun hh => h hh.symm), if_neg (fun hh => h hh.symm)]
    · simp only [insertState, if_neg h2, lookupState]
      by_cases h3 : k2 = k1
      · rw [if_pos h3, if_pos h3]
      · rw [if_neg h3, if_neg h3, ih]

/-- After a successful `store_int`, the fact at the key is an `Int` with the
stored payload. -/
theorem store_int_lookup (st s2 : CoolFactStore) (k : String) (v : Int)
    (h : st.store_int k v = some s2) :
    ∃ n, lookupFact s2.facts k = some (Fact.int n v) := by
  unfold CoolFactStore.store_int at h
  split at h
  case h_1 name current heq =>
    split at h
    case isTrue hne =>
      obtain rfl := Option.some.inj h
      exact ⟨k, lookupFact_insertFact_self _ _ _⟩
    case isFalse heqv =>
      obtain rfl := Option.some.inj h
      rw [not_not] at heqv
      subst heqv
      exact ⟨name, heq⟩
  case h_2 => exact absurd h (by simp)
  case h_3 heq =>
    obtain rfl := Option.some.inj h
    exact ⟨k, lookupFact_insertFact_self _ _ _⟩
theorem store_string_lookup (st s2 : CoolFactStore) (k : String) (v : String)
    (h : st.store_string k v = some s2) :
    ∃ n, lookupFact s2.facts k = some (Fact.string n v) := by
  unfold CoolFactStore.store_string at h
  split at h
  case h_1 name current heq =>
    split at h
    case isTrue hne =>
      obtain rfl := Option.some.inj h
      exact ⟨k, lookupFact_insertFact_self _ _ _⟩
    case isFalse heqv =>
      obtain rfl := Option.some.inj h
      rw [not_not] at heqv
      subst heqv
      exact ⟨name, heq⟩
  case h_2 => exact absurd h (by simp)
  case h_3 heq =>
    obtain rfl := Option.some.inj h
    exact ⟨k, lookupFact_insertFact_self _ _ _⟩
theorem store_bool_lookup (st s2 : CoolFactStore) (k : String) (v : Bool)
    (h : st.store_bool k v = some s2) :
    ∃ n, lookupFact s2.facts k = some (Fact.bool n v) := by
  unfold CoolFactStore.store_bool at h
  split at h
  case h_1 name current heq =>
    split at h
    case isTrue hne =>
      obtain rfl := Option.some.inj h
      exact ⟨k, lookupFact_insertFact_self _ _ _⟩
    case isFalse heqv =>
      obtain rfl := Option.some.inj h
      rw [not_not] at heqv
      subst heqv
      exact ⟨name, heq⟩
  case h_2 => exact absurd h (by simp)
  case h_3 heq =>
    obtain rfl := Option.some.inj h
    exact ⟨k, lookupFact_insertFact_self _ _ _⟩
/-- C1. For every fact store and name, each typed setter inserts-and-dirties on
an absent name, replaces-and-dirties on a same-variant different payload,
is a complete no-op on a same-variant equal payload, and is idempotent, so a
repeated identical store never adds a second dirty entry. -/
theorem C1_store_typed_dedup (st : CoolFactStore) (k : String) :
    (∀ v : Int,
      (lookupFact st.facts k = none →
        st.store_int k v = some ⟨insertFact st.facts k (Fact.int k v),
          dirtyInsert st.updated_facts (Fact.int k v)⟩) ∧
      (∀ n cur, lookupFact st.facts k = some (Fact.int n cur) → cur ≠ v →
        st.store_int k v = some ⟨insertFact st.facts k (Fact.int k v),
          dirtyInsert st.updated_facts (Fact.int k v)⟩) ∧
      (∀ n, lookupFact st.facts k = some (Fact.int n v) → st.store_int k v = some st) ∧
      (∀ s2, st.store_int k v = some s2 → s2.store_int k v = some s2)) ∧
    (∀ v : String,
      (lookupFact st.facts k = none →
        st.store_string k v = some ⟨insertFact st.facts k (Fact.string k v),
          dirtyInsert st.updated_facts (Fact.string k v)⟩) ∧
      (∀ n cur, lookupFact st.facts k = some (Fact.string n cur) → cur ≠ v →
        st.store_string k v = some ⟨insertFact st.facts k (Fact.string k v),
          dirtyInsert st.updated_facts (Fact.string k v)⟩) ∧
      (∀ n, lookupFact st.facts k = some (Fact.string n v) → st.store_string k v = some st) ∧
      (∀ s2, st.store_string k v = some s2 → s2.store_string k v = some s2)) ∧
    (∀ v : Bool,
      (lookupFact st.facts k = none →
        st.store_bool k v = some ⟨insertFact st.facts k (Fact.bool k v),
          dirtyInsert st.updated_facts (Fact.bool k v)⟩) ∧
      (∀ n cur, lookupFact st.facts k = some (Fact.bool n cur) → cur ≠ v →
        st.store_bool k v = some ⟨insertFact st.facts k (Fact.bool k v),
          dirtyInsert st.updated_facts (Fact.bool k v)⟩) ∧
      (∀ n, lookupFact st.facts k = some (Fact.bool n v) → st.store_bool k v = some st) ∧
      (∀ s2, st.store_bool k v = some s2 → s2.store_bool k v = some s2)) := by
  refine ⟨fun v => ⟨?_, ?_, ?_, ?_⟩, fun v => ⟨?_, ?_, ?_, ?_⟩, fun v => ⟨?_, ?_, ?_, ?_⟩⟩
  · intro h; simp [CoolFactStore.store_int, h]
  · intro n cur h hne; simp [CoolFactStore.store_int, h, hne]
  · intro n h; simp [CoolFactStore.store_int, h]
  · intro s2 h
    obtain ⟨n, hn⟩ := store_int_lookup st s2 k v h
    simp [CoolFactStore.store_int, hn]
  · intro h; simp [CoolFactStore.store_string, h]
  · intro n cur h hne; simp [CoolFactStore.store_string, h, hne]
  · intro n h; simp [CoolFactStore.store_string, h]
  · intro s2 h
    obtain ⟨n, hn⟩ := store_string_lookup st s2 k v h
    simp [CoolFactStore.store_string, hn]
  · intro h; simp [CoolFactStore.store_bool, h]
  · intro n cur h hne; simp [CoolFactStore.store_bool, h, hne]
  · intro n h; simp [CoolFactStore.store_bool, h]
  · intro s2 h
    obtain ⟨n, hn⟩ := store_bool_lookup st s2 k v h
    simp [CoolFactStore.store_bool, hn]

/-- Witness for C1 at concrete inputs. -/
theorem C1_store_typed_dedup_witness :
    CoolFactStore.new.store_int "x" 3 =
      some ⟨[("x", Fact.int "x" 3)], [Fact.int "x" 3]⟩ ∧
    CoolFactStore.store_int ⟨[("x", Fact.int "x" 3)], []⟩ "x" 4 =
      some ⟨[("x", Fact.int "x" 4)], [Fact.int "x" 4]⟩ ∧
    CoolFactStore.store_int ⟨[("x", Fact.int "x" 3)], []⟩ "x" 3 =
      some ⟨[("x", Fact.int "x" 3)], []⟩ ∧
    CoolFactStore.store_int ⟨[("x", Fact.int "x" 3)], [Fact.int "x" 3]⟩ "x" 3 =
      some ⟨[("x", Fact.int "x" 3)], [Fact.int "x" 3]⟩ ∧
    CoolFactStore.store_string ⟨[], []⟩ "s" "a" =
      some ⟨[("s", Fact.string "s" "a")], [Fact.string "s" "a"]⟩ ∧
    CoolFactStore.store_bool ⟨[("b", Fact.bool "b" true)], []⟩ "b" true =
      some ⟨[("b", Fact.bool "b" true)], []⟩ := by
  refine ⟨((C1_store_typed_dedup CoolFactStore.new "x").1 3).1 (by decide),
    ((C1_store_typed_dedup ⟨[("x", Fact.int "x" 3)], []⟩ "x").1 4).2.1 "x" 3 (by decide)
      (by decide),
    ((C1_store_typed_dedup ⟨[("x", Fact.int "x" 3)], []⟩ "x").1 3).2.2.1 "x" (by decide),
    ((C1_store_typed_dedup ⟨[("x", Fact.int "x" 3)], [Fact.int "x" 3]⟩ "x").1 3).2.2.2
      _ (by decide),
    ((C1_store_typed_dedup ⟨[], []⟩ "s").2.1 "a").1 (by decide),
    ((C1_store_typed_dedup ⟨[("b", Fact.bool "b" true)], []⟩ "b").2.2 true).2.2.1 "b"
      (by decide)⟩

/-- C5. `Condition::evaluate` returns `false` (and, being a total boolean
function in the embedding, never signals an error) whenever the named fact is
absent from the snapshot or holds a payload of a different variant than the
condition expects. -/
theorem C5_condition_absent_or_mismatch_false (c : Condition) (facts : FactMap)
    (h : ∀ f, lookupFact facts c.factName = some f → f.kind ≠ c.expectedKind) :
    c.evaluate facts = false := by
  cases c with
  | intEquals n v =>
    simp only [Condition.evaluate]
    split
    next a value heq => exact absurd rfl (h _ heq)
    next => rfl
  | intMoreThan n v =>
    simp only [Condition.evaluate]
    split
    next a value heq => exact absurd rfl (h _ heq)
    next => rfl
  | intLessThan n v =>
    simp only [Condition.evaluate]
    split
    next a value heq => exact absurd rfl (h _ heq)
    next => rfl
  | stringEquals n v =>
    simp only [Condition.evaluate]
    split
    next a value heq => exact absurd rfl (h _ heq)
    next => rfl
  | boolEquals n v =>
    simp only [Condition.evaluate]
    split
    next a value heq => exact absurd rfl (h _ heq)
    next => rfl
  | listContains n v =>
    simp only [Condition.evaluate]
    split
    next a value heq => exact absurd rfl (h _ heq)
    next => rfl

/-- Witness for C5: an absent fact and a wrong-variant fact both evaluate to
`false`. -/
theorem C5_condition_absent_or_mismatch_false_witness :
    Condition.evaluate (.intEquals "missing" 1) [("x", Fact.int "x" 1)] = false ∧
    Condition.evaluate (.boolEquals "x" true) [("x", Fact.int "x" 1)] = false := by
  refine ⟨C5_condition_absent_or_mismatch_false (.intEquals "missing" 1)
      [("x", Fact.int "x" 1)] ?_,
    C5_condition_absent_or_mismatch_false (.boolEquals "x" true)
      [("x", Fact.int "x" 1)] ?_⟩ <;> decide

/-- C6 counterexample: `add_to_list` is a write operation, yet on a name whose
existing fact has a different variant (here an `Int`) it neither aborts nor
replaces the fact — it silently returns the store unchanged, so the claim that
every mismatched write is a fatal, aborting type error is false. -/
theorem C6_counterexample :
    CoolFactStore.add_to_list ⟨[("x", Fact.int "x" 1)], []⟩ "x" "v" =
      ⟨[("x", Fact.int "x" 1)], []⟩ := by decide

/-- C6 amended: for the typed setters `store_int`/`store_string`/`store_bool`
a write under an existing name of a different variant is fatal (the operation
aborts), and in particular a name stored as `Int` rejects a later
`store_string`; `add_to_list`, however, silently ignores the mismatched fact
and leaves the store unchanged. -/
theorem C6_amended (st : CoolFactStore) (k : String) (f : Fact)
    (h : lookupFact st.facts k = some f) :
    (f.kind ≠ FactKind.int → ∀ v, st.store_int k v = none) ∧
    (f.kind ≠ FactKind.string → ∀ v, st.store_string k v = none) ∧
    (f.kind ≠ FactKind.bool → ∀ v, st.store_bool k v = none) ∧
    (f.kind ≠ FactKind.stringList → ∀ v, st.add_to_list k v = st) := by
  refine ⟨fun hk v => ?_, fun hk v => ?_, fun hk v => ?_, fun hk v => ?_⟩
  · cases f with
    | int n c => exact absurd rfl hk
    | string n c => simp [CoolFactStore.store_int, h]
    | bool n c => simp [CoolFactStore.store_int, h]
    | stringList n c => simp [CoolFactStore.store_int, h]
  · cases f with
    | string n c => exact absurd rfl hk
    | int n c => simp [CoolFactStore.store_string, h]
    | bool n c => simp [CoolFactStore.store_string, h]
    | stringList n c => simp [CoolFactStore.store_string, h]
  · cases f with
    | bool n c => exact absurd rfl hk
    | int n c => simp [CoolFactStore.store_bool, h]
    | string n c => simp [CoolFactStore.store_bool, h]
    | stringList n c => simp [CoolFactStore.store_bool, h]
  · cases f with
    | stringList n c => exact absurd rfl hk
    | int n c => simp [CoolFactStore.add_to_list, h]
    | string n c => simp [CoolFactStore.add_to_list, h]
    | bool n c => simp [CoolFactStore.add_to_list, h]

/-- Witness for C6 amended: a name stored as `Int` rejects `store_string`,
while `add_to_list` on it is a silent no-op. -/
theorem C6_amended_witness :
    CoolFactStore.store_string ⟨[("x", Fact.int "x" 1)], []⟩ "x" "y" = none ∧
    CoolFactStore.add_to_list ⟨[("y", Fact.int "y" 2)], []⟩ "y" "v" =
      ⟨[("y", Fact.int "y" 2)], []⟩ := by
  refine ⟨(C6_amended ⟨[("x", Fact.int "x" 1)], []⟩ "x" (Fact.int "x" 1)
      (by decide)).2.1 (by decide) "y",
    (C6_amended ⟨[("y", Fact.int "y" 2)], []⟩ "y" (Fact.int "y" 2)
      (by decide)).2.2.2 (by decide) "v"⟩

/-! Lemmas about the string-hash-set model. -/

theorem mem_shsInsert (l : StringHashSet) (s x : String) :
    x ∈ shsInsert l s ↔ x ∈ l ∨ x = s := by
  by_cases h : s ∈ l
  · simp only [shsInsert, if_pos h]
    exact ⟨Or.inl, fun hh => hh.elim id (fun he => he ▸ h)⟩
  · simp [shsInsert, if_neg h]

theorem nodup_shsInsert (l : StringHashSet) (s : String) (h : l.Nodup) :
    (shsInsert l s).Nodup := by
  by_cases hm : s ∈ l
  · simpa [shsInsert, if_pos hm] using h
  · simp [shsInsert, if_neg hm, List.nodup_append, h, hm]

theorem mem_foldl_shsInsert (xs : List String) (acc : StringHashSet) (x : String) :
    x ∈ xs.foldl shsInsert acc ↔ x ∈ acc ∨ x ∈ xs := by
  induction xs generalizing acc with
  | nil => simp
  | cons a rest ih =>
    simp [List.foldl_cons, ih, mem_shsInsert, List.mem_cons]
    tauto

theorem nodup_foldl_shsInsert (xs : List String) (acc : StringHashSet)
    (h : acc.Nodup) : (xs.foldl shsInsert acc).Nodup := by
  induction xs generalizing acc with
  | nil => simpa
  | cons a rest ih => exact ih _ (nodup_shsInsert _ _ h)

theorem mem_shsOfList (xs : List String) (x : String) :
    x ∈ shsOfList xs ↔ x ∈ xs := by
  simp [shsOfList, mem_foldl_shsInsert]

theorem nodup_shsOfList (xs : List String) : (shsOfList xs).Nodup :=
  nodup_foldl_shsInsert xs [] (List.nodup_nil)

theorem shsEq_iff (a b : StringHashSet) :
    shsEq a b = true ↔ ∀ x, (x ∈ a ↔ x ∈ b) := by
  simp only [shsEq, Bool.and_eq_true, List.all_eq_true, decide_eq_true_eq]
  constructor
  · rintro ⟨h1, h2⟩ x
    exact ⟨fun hx => h1 x hx, fun hx => h2 x hx⟩
  · intro h
    exact ⟨fun x hx => (h x).1 hx, fun x hx => (h x).2 hx⟩

theorem shsHashSeq_congr (a b : StringHashSet) (ha : a.Nodup) (hb : b.Nodup)
    (hmem : ∀ x, x ∈ a ↔ x ∈ b) : shsHashSeq a = shsHashSeq b := by
  have hperm : a.Perm b := (List.perm_ext_iff_of_nodup ha hb).2 hmem
  exact List.eq_of_perm_of_sorted
    ((List.perm_insertionSort _ a).trans
      (hperm.trans (List.perm_insertionSort _ b).symm))
    (List.sorted_insertionSort _ a) (List.sorted_insertionSort _ b)

/-- C10. Two string hash sets holding the same elements — in whatever insertion
order they were built — compare equal and hash identically, and hashing is
consistent with equality: equal sets produce the same canonical sorted
sequence, hence the same hash value. -/
theorem C10_shs_order_independent :
    (∀ xs ys : List String, (∀ s, s ∈ xs ↔ s ∈ ys) →
      shsEq (shsOfList xs) (shsOfList ys) = true ∧
      shsHashSeq (shsOfList xs) = shsHashSeq (shsOfList ys)) ∧
    (∀ a b : StringHashSet, a.Nodup → b.Nodup →
      shsEq a b = true → shsHashSeq a = shsHashSeq b) := by
  constructor
  · intro xs ys hmem
    have hm : ∀ x, (x ∈ shsOfList xs ↔ x ∈ shsOfList ys) := by
      intro x
      rw [mem_shsOfList, mem_shsOfList]
      exact hmem x
    exact ⟨(shsEq_iff _ _).2 hm,
      shsHashSeq_congr _ _ (nodup_shsOfList xs) (nodup_shsOfList ys) hm⟩
  · intro a b ha hb he
    exact shsHashSeq_congr a b ha hb ((shsEq_iff a b).1 he)

/-- Witness for C10 at concrete inputs: the same two elements inserted in both
orders. -/
theorem C10_shs_order_independent_witness :
    (shsEq (shsOfList ["a", "b"]) (shsOfList ["b", "a"]) = true ∧
      shsHashSeq (shsOfList ["a", "b"]) = shsHashSeq (shsOfList ["b", "a"])) ∧
    shsHashSeq ["a", "b"] = shsHashSeq ["b", "a"] := by
  refine ⟨C10_shs_order_independent.1 ["a", "b"] ["b", "a"] ?_,
    C10_shs_order_independent.2 ["a", "b"] ["b", "a"] (by decide) (by decide)
      (by decide)⟩
  intro s
  simp [List.mem_cons, or_comm]

/-! Step lemmas for `Story::evaluate_active_beat`. -/

theorem eab_terminal (s : Story) (facts : FactMap)
    (h : s.beats.length ≤ s.active_beat_index) :
    s.evaluate_active_beat facts = s := by
  unfold Story.evaluate_active_beat
  rw [dif_neg (by omega)]

theorem eab_length (s : Story) (facts : FactMap) :
    (s.evaluate_active_beat facts).beats.length = s.beats.length := by
  by_cases h : s.active_beat_index < s.beats.length
  · simp only [Story.evaluate_active_beat, dif_pos h]
    split <;> simp
  · simp [Story.evaluate_active_beat, dif_neg h]

theorem eab_index_cases (s : Story) (facts : FactMap) :
    (s.evaluate_active_beat facts).active_beat_index = s.active_beat_index ∨
    (s.evaluate_active_beat facts).active_beat_index = s.active_beat_index + 1 := by
  by_cases h : s.active_beat_index < s.beats.length
  · simp only [Story.evaluate_active_beat, dif_pos h]
    split
    · right; rfl
    · left; rfl
  · rw [eab_terminal s facts (by omega)]
    left; rfl

theorem eab_index_mono (s : Story) (facts : FactMap) :
    s.active_beat_index ≤ (s.evaluate_active_beat facts).active_beat_index := by
  rcases eab_index_cases s facts with h | h <;> omega

theorem eab_index_advance (s : Story) (facts : FactMap)
    (h : s.active_beat_index < s.beats.length)
    (hall : (s.beats.get ⟨s.active_beat_index, h⟩).rules.all
      (fun r => r.evaluate facts) = true) :
    (s.evaluate_active_beat facts).active_beat_index = s.active_beat_index + 1 := by
  simp only [Story.evaluate_active_beat, dif_pos h]
  rw [show ((s.beats.get ⟨s.active_beat_index, h⟩).evaluate facts).finished = true from hall,
    if_pos rfl]

theorem eab_index_stay (s : Story) (facts : FactMap)
    (h : s.active_beat_index < s.beats.length)
    (hall : (s.beats.get ⟨s.active_beat_index, h⟩).rules.all
      (fun r => r.evaluate facts) = false) :
    (s.evaluate_active_beat facts).active_beat_index = s.active_beat_index := by
  simp only [Story.evaluate_active_beat, dif_pos h]
  rw [show ((s.beats.get ⟨s.active_beat_index, h⟩).evaluate facts).finished = false from hall,
    if_neg Bool.false_ne_true]

theorem eab_bound (s : Story) (facts : FactMap)
    (h : s.active_beat_index ≤ s.beats.length) :
    (s.evaluate_active_beat facts).active_beat_index ≤
      (s.evaluate_active_beat facts).beats.length := by
  rw [eab_length]
  by_cases hlt : s.active_beat_index < s.beats.length
  · rcases eab_index_cases s facts with hc | hc <;> omega
  · rw [eab_terminal s facts (by omega)]
    omega

theorem eab_get?_lt (s : Story) (facts : FactMap) (i : Nat)
    (hi : i < s.active_beat_index) :
    (s.evaluate_active_beat facts).beats[i]? = s.beats[i]? := by
  by_cases h : s.active_beat_index < s.beats.length
  · simp only [Story.evaluate_active_beat, dif_pos h]
    split <;> exact List.getElem?_set_ne (by omega)
  · rw [eab_terminal s facts (by omega)]

theorem eab_advance_get? (s : Story) (facts : FactMap)
    (h : s.active_beat_index < s.beats.length) :
    (s.evaluate_active_beat facts).beats[s.active_beat_index]? =
      some ((s.beats.get ⟨s.active_beat_index, h⟩).evaluate facts) := by
  simp only [Story.evaluate_active_beat, dif_pos h]
  split <;> exact List.getElem?_set_eq_of_lt _ h

theorem run_index_mono (s : Story) (l : List FactMap) :
    s.active_beat_index ≤ (Story.run s l).active_beat_index := by
  induction l generalizing s with
  | nil => exact le_refl _
  | cons f rest ih => exact le_trans (eab_index_mono s f) (ih _)

theorem run_length (s : Story) (l : List FactMap) :
    (Story.run s l).beats.length = s.beats.length := by
  induction l generalizing s with
  | nil => rfl
  | cons f rest ih => rw [Story.run, ih, eab_length]

theorem run_bound (s : Story) (l : List FactMap)
    (h : s.active_beat_index ≤ s.beats.length) :
    (Story.run s l).active_beat_index ≤ (Story.run s l).beats.length := by
  induction l generalizing s with
  | nil => exact h
  | cons f rest ih => exact ih _ (eab_bound s f h)

theorem run_terminal (s : Story) (l : List FactMap)
    (h : s.beats.length ≤ s.active_beat_index) :
    Story.run s l = s := by
  induction l with
  | nil => rfl
  | cons f rest ih => rw [Story.run, eab_terminal s f h, ih]

theorem run_get?_lt (s : Story) (l : List FactMap) (i : Nat)
    (hi : i < s.active_beat_index) :
    (Story.run s l).beats[i]? = s.beats[i]? := by
  induction l generalizing s with
  | nil => rfl
  | cons f rest ih =>
    rw [Story.run, ih _ (lt_of_lt_of_le hi (eab_index_mono s f)), eab_get?_lt s f i hi]

/-- C3. `active_beat_index` is bounded by `beats.length` and non-decreasing:
one call advances it by exactly one when the active beat's guard rules all
evaluate true, leaves it unchanged otherwise, is a whole-story no-op in the
terminal state, and across any sequence of calls the index never decreases nor
escapes the range, so a finished story stays finished. -/
theorem C3_story_monotone_bounded (s : Story) (facts : FactMap) :
    s.active_beat_index ≤ (s.evaluate_active_beat facts).active_beat_index ∧
    (s.evaluate_active_beat facts).beats.length = s.beats.length ∧
    (s.active_beat_index ≤ s.beats.length →
      (s.evaluate_active_beat facts).active_beat_index ≤ s.beats.length) ∧
    (∀ h : s.active_beat_index < s.beats.length,
      ((s.beats.get ⟨s.active_beat_index, h⟩).rules.all (fun r => r.evaluate facts) = true →
        (s.evaluate_active_beat facts).active_beat_index = s.active_beat_index + 1) ∧
      ((s.beats.get ⟨s.active_beat_index, h⟩).rules.all (fun r => r.evaluate facts) = false →
        (s.evaluate_active_beat facts).active_beat_index = s.active_beat_index)) ∧
    (s.active_beat_index = s.beats.length → s.evaluate_active_beat facts = s) ∧
    (∀ l : List FactMap,
      s.active_beat_index ≤ (Story.run s l).active_beat_index ∧
      (s.active_beat_index ≤ s.beats.length →
        (Story.run s l).active_beat_index ≤ (Story.run s l).beats.length) ∧
      (s.is_finished = true → (Story.run s l).is_finished = true)) := by
  refine ⟨eab_index_mono s facts, eab_length s facts, ?_, ?_, ?_, ?_⟩
  · intro h
    have := eab_bound s facts h
    rwa [eab_length] at this
  · intro h
    exact ⟨eab_index_advance s facts h, eab_index_stay s facts h⟩
  · intro h
    exact eab_terminal s facts (le_of_eq h.symm)
  · intro l
    refine ⟨run_index_mono s l, run_bound s l, fun hf => ?_⟩
    rw [run_terminal s l (by simpa [Story.is_finished] using hf)]
    exact hf

/-- Witness for C3 at a concrete one-beat story. -/
theorem C3_story_monotone_bounded_witness :
    ((Story.new "s" [StoryBeat.new "b" [Rule.new "r" [.intEquals "x" 1]]]).evaluate_active_beat
        [("x", Fact.int "x" 1)]).active_beat_index = 1 ∧
    ((Story.new "s" [StoryBeat.new "b" [Rule.new "r" [.intEquals "x" 1]]]).evaluate_active_beat
        [("x", Fact.int "x" 2)]).active_beat_index = 0 ∧
    (Story.mk "s" [StoryBeat.new "b" []] 1).evaluate_active_beat [] =
      Story.mk "s" [StoryBeat.new "b" []] 1 ∧
    ((Story.new "s" [StoryBeat.new "b" [Rule.new "r" [.intEquals "x" 1]]]).evaluate_active_beat
        [("x", Fact.int "x" 1)]).active_beat_index ≤ 1 := by
  refine ⟨((C3_story_monotone_bounded _ _).2.2.2.1 (by decide)).1 (by decide),
    ((C3_story_monotone_bounded _ _).2.2.2.1 (by decide)).2 (by decide),
    (C3_story_monotone_bounded (Story.mk "s" [StoryBeat.new "b" []] 1) []).2.2.2.2.1
      (by decide),
    (C3_story_monotone_bounded _ _).2.2.1 (by decide)⟩

/-- C4.  The reporting variant of `evaluate_active_beat` performs exactly the
transition of the src/ revision and yields the beat that just finished — some
beat exactly when the active beat's guard rules all evaluate true (equivalently,
exactly when the index advances), and nothing otherwise. -/
theorem C4_report_finished_beat (s : Story) (facts : FactMap) :
    (s.evaluate_active_beat_report facts).1 = s.evaluate_active_beat facts ∧
    (∀ h : s.active_beat_index < s.beats.length,
      ((s.beats.get ⟨s.active_beat_index, h⟩).rules.all (fun r => r.evaluate facts) = true →
        (s.evaluate_active_beat_report facts).2 =
          some ((s.beats.get ⟨s.active_beat_index, h⟩).evaluate facts)) ∧
      ((s.beats.get ⟨s.active_beat_index, h⟩).rules.all (fun r => r.evaluate facts) = false →
        (s.evaluate_active_beat_report facts).2 = none)) ∧
    (s.beats.length ≤ s.active_beat_index →
      (s.evaluate_active_beat_report facts).2 = none) ∧
    ((s.evaluate_active_beat_report facts).2.isSome = true ↔
      (s.evaluate_active_beat_report facts).1.active_beat_index = s.active_beat_index + 1) := by
  refine ⟨?_, ?_, ?_, ?_⟩
  · by_cases h : s.active_beat_index < s.beats.length
    · simp only [Story.evaluate_active_beat_report, Story.evaluate_active_beat, dif_pos h]
      split <;> rfl
    · simp only [Story.evaluate_active_beat_report, Story.evaluate_active_beat, dif_neg h]
  · intro h
    constructor
    · intro hall
      simp only [Story.evaluate_active_beat_report, dif_pos h]
      rw [show ((s.beats.get ⟨s.active_beat_index, h⟩).evaluate facts).finished = true
          from hall, if_pos rfl]
    · intro hall
      simp only [Story.evaluate_active_beat_report, dif_pos h]
      rw [show ((s.beats.get ⟨s.active_beat_index, h⟩).evaluate facts).finished = false
          from hall, if_neg Bool.false_ne_true]
  · intro h
    simp only [Story.evaluate_active_beat_report, dif_neg (by omega : ¬s.active_beat_index < s.beats.length)]
  · by_cases h : s.active_beat_index < s.beats.length
    · simp only [Story.evaluate_active_beat_report, dif_pos h]
      split
      · simp
      · simp
    · simp only [Story.evaluate_active_beat_report, dif_neg h]
      simp

/-- Witness for C4 at a concrete one-beat story: the finished beat is reported
when its rule holds, nothing is reported when it does not. -/
theorem C4_report_finished_beat_witness :
    ((Story.new "s" [StoryBeat.new "b" [Rule.new "r" [.intEquals "x" 1]]]).evaluate_active_beat_report
        [("x", Fact.int "x" 1)]).2 = some ⟨"b", [Rule.new "r" [.intEquals "x" 1]], true⟩ ∧
    ((Story.new "s" [StoryBeat.new "b" [Rule.new "r" [.intEquals "x" 1]]]).evaluate_active_beat_report
        [("x", Fact.int "x" 2)]).2 = none ∧
    ((Story.mk "s" [StoryBeat.new "b" []] 1).evaluate_active_beat_report []).2 = none := by
  refine ⟨((C4_report_finished_beat _ _).2.1 (by decide)).1 (by decide),
    ((C4_report_finished_beat _ _).2.1 (by decide)).2 (by decide),
    (C4_report_finished_beat (Story.mk "s" [StoryBeat.new "b" []] 1) []).2.2.1 (by decide)⟩

/-- C7 counterexample: a direct `StoryBeat::evaluate` call recomputes the
`finished` flag from scratch, so a beat whose rule held once and then stopped
holding transitions `true → false` — the flag is not monotone under arbitrary
evaluate calls. -/
theorem C7_counterexample :
    ((StoryBeat.new "b" [Rule.new "r" [.intEquals "x" 1]]).evaluate
        [("x", Fact.int "x" 1)]).finished = true ∧
    (((StoryBeat.new "b" [Rule.new "r" [.intEquals "x" 1]]).evaluate
        [("x", Fact.int "x" 1)]).evaluate [("x", Fact.int "x" 2)]).finished = false := by
  decide

/-- C7 amended: the flag starts `false`; a direct `StoryBeat::evaluate` sets it
to the current rule conjunction (and can therefore lower it), but through the
`Story` interface beats strictly below the active index are never modified, and
a beat that finishes is set `true` at the moment the index advances past it, so
it keeps `finished = true` under any further `evaluate_active_beat` calls. -/
theorem C7_beat_finished_amended :
    (∀ n rs, (StoryBeat.new n rs).finished = false) ∧
    (∀ (s : Story) (facts : FactMap) (i : Nat), i < s.active_beat_index →
      (s.evaluate_active_beat facts).beats[i]? = s.beats[i]?) ∧
    (∀ (s : Story) (l : List FactMap) (i : Nat), i < s.active_beat_index →
      (Story.run s l).beats[i]? = s.beats[i]?) ∧
    (∀ (s : Story) (facts : FactMap) (l : List FactMap)
      (h : s.active_beat_index < s.beats.length),
      (s.beats.get ⟨s.active_beat_index, h⟩).rules.all (fun r => r.evaluate facts) = true →
      (Story.run (s.evaluate_active_beat facts) l).beats[s.active_beat_index]? =
        some ((s.beats.get ⟨s.active_beat_index, h⟩).evaluate facts) ∧
      ((s.beats.get ⟨s.active_beat_index, h⟩).evaluate facts).finished = true) := by
  refine ⟨fun n rs => rfl, eab_get?_lt, run_get?_lt, ?_⟩
  intro s facts l h hall
  refine ⟨?_, hall⟩
  rw [run_get?_lt _ l s.active_beat_index
    (by rw [eab_index_advance s facts h hall]; omega)]
  exact eab_advance_get? s facts h

/-- Witness for C7 amended: after the one-beat story advances, the finished
beat is still recorded `finished = true` on a later pass where its rule fails. -/
theorem C7_beat_finished_amended_witness :
    (StoryBeat.new "b" [Rule.new "r" [.intEquals "x" 1]]).finished = false ∧
    (Story.run
        ((Story.new "s" [StoryBeat.new "b" [Rule.new "r" [.intEquals "x" 1]]]).evaluate_active_beat
          [("x", Fact.int "x" 1)])
        [[("x", Fact.int "x" 2)]]).beats[0]? =
      some ⟨"b", [Rule.new "r" [.intEquals "x" 1]], true⟩ := by
  refine ⟨C7_beat_finished_amended.1 "b" [Rule.new "r" [.intEquals "x" 1]], ?_⟩
  exact (C7_beat_finished_amended.2.2.2
    (Story.new "s" [StoryBeat.new "b" [Rule.new "r" [.intEquals "x" 1]]])
    [("x", Fact.int "x" 1)] [[("x", Fact.int "x" 2)]] (by decide) (by decide)).1

/-! Lemmas for `RuleEngine::evaluate_rules`. -/

theorem evaluateRulesAux_spec (facts : FactMap) (rules : List (String × Rule)) :
    ∀ st : StateMap, (rules.map Prod.fst).Nodup →
    (∀ p ∈ rules, (lookupState st p.1).isSome = true) →
    ∃ st1 upd, evaluateRulesAux facts rules st = some (st1, upd) ∧
      upd = (rules.filter
        (fun p => lookupState st p.1 ≠ some (p.2.evaluate facts))).map Prod.fst ∧
      (∀ p ∈ rules, lookupState st1 p.1 = some (p.2.evaluate facts)) ∧
      (∀ m, m ∉ rules.map Prod.fst → lookupState st1 m = lookupState st m) := by
  induction rules with
  | nil =>
    intro st _ _
    exact ⟨st, [], rfl, rfl, by simp, fun m _ => rfl⟩
  | cons p rest ih =>
    intro st hnd hcov
    obtain ⟨n, r⟩ := p
    obtain ⟨prev, hprev⟩ :=
      Option.isSome_iff_exists.1 (hcov (n, r) (List.mem_cons_self _ _))
    have hnd1 : (rest.map Prod.fst).Nodup := (List.nodup_cons.1 (by simpa using hnd)).2
    have hnmem : n ∉ rest.map Prod.fst := (List.nodup_cons.1 (by simpa using hnd)).1
    have hne1 : ∀ q ∈ rest, q.1 ≠ n := by
      intro q hq he
      exact hnmem (he ▸ List.mem_map_of_mem Prod.fst hq)
    by_cases hflip : prev = r.evaluate facts
    · obtain ⟨st1, upd, heq, hupd, hstates, houts⟩ :=
        ih st hnd1 (fun q hq => hcov q (List.mem_cons_of_mem _ hq))
      refine ⟨st1, upd, ?_, ?_, ?_, ?_⟩
      · simp only [evaluateRulesAux, hprev]
        rw [if_neg (not_not_intro hflip)]
        exact heq
      · rw [hupd]
        have hcond : ¬(lookupState st n ≠ some (r.evaluate facts)) := by
          rw [hprev, hflip]
          simp
        simp [List.filter_cons, hcond]
      · intro q hq
        rcases List.mem_cons.1 hq with hq | hq
        · subst hq
          rw [houts n hnmem, hprev, hflip]
        · exact hstates q hq
      · intro m hm
        exact houts m (fun hc => hm (List.mem_cons_of_mem _ hc))
    · have hcov1 : ∀ q ∈ rest, (lookupState (insertState st n (!prev)) q.1).isSome = true := by
        intro q hq
        rw [lookupState_insertState_ne st n q.1 (!prev) (hne1 q hq)]
        exact hcov q (List.mem_cons_of_mem _ hq)
      obtain ⟨st1, upd, heq, hupd, hstates, houts⟩ :=
        ih (insertState st n (!prev)) hnd1 hcov1
      have hnotp : (!prev) = r.evaluate facts := by
        cases prev
        · cases hre : r.evaluate facts
          · exact absurd hre.symm hflip
          · rfl
        · cases hre : r.evaluate facts
          · rfl
          · exact absurd hre.symm hflip
      refine ⟨st1, n :: upd, ?_, ?_, ?_, ?_⟩
      · simp only [evaluateRulesAux, hprev]
        rw [if_pos hflip, heq]
      · have hfeq : rest.filter
            (fun p => lookupState (insertState st n (!prev)) p.1 ≠ some (p.2.evaluate facts)) =
            rest.filter (fun p => lookupState st p.1 ≠ some (p.2.evaluate facts)) := by
          refine List.filter_congr ?_
          intro q hq
          rw [lookupState_insertState_ne st n q.1 (!prev) (hne1 q hq)]
        have hcond : lookupState st n ≠ some (r.evaluate facts) := by
          rw [hprev]
          exact fun hc => hflip (Option.some.inj hc)
        rw [hupd, hfeq]
        simp [List.filter_cons, hcond]
      · intro q hq
        rcases List.mem_cons.1 hq with hq | hq
        · subst hq
          rw [houts n hnmem, lookupState_insertState_self, hnotp]
        · exact hstates q hq
      · intro m hm
        have hmn : m ≠ n := fun hc => hm (hc ▸ List.mem_cons_self _ _)
        rw [houts m (fun hc => hm (List.mem_cons_of_mem _ hc)),
          lookupState_insertState_ne st n m (!prev) hmn]

theorem evaluateRulesAux_stable (facts : FactMap) (rules : List (String × Rule)) :
    ∀ st : StateMap, (∀ p ∈ rules, lookupState st p.1 = some (p.2.evaluate facts)) →
    evaluateRulesAux facts rules st = some (st, []) := by
  induction rules with
  | nil => intro st _; rfl
  | cons p rest ih =>
    intro st h
    obtain ⟨n, r⟩ := p
    simp only [evaluateRulesAux, h (n, r) (List.mem_cons_self _ _)]
    rw [if_neg (not_not_intro rfl)]
    exact ih st (fun q hq => h q (List.mem_cons_of_mem _ hq))

/-- C2. On well-formed engines (unique rule names, every rule tracked),
`evaluate_rules` succeeds and returns exactly the names of the owned rules
whose fresh evaluation differs from the stored state, stores the fresh
evaluation for each of them, changes no other state, and therefore an
immediately repeated call on the same snapshot returns the empty set. -/
theorem C2_evaluate_rules_flips (e : RuleEngine) (facts : FactMap)
    (hnd : (e.rules.map Prod.fst).Nodup)
    (hcov : ∀ p ∈ e.rules, (lookupState e.rule_states p.1).isSome = true) :
    ∀ e1 upd, e.evaluate_rules facts = some (e1, upd) →
      e1.rules = e.rules ∧
      (∀ n, n ∈ upd ↔ ∃ r, (n, r) ∈ e.rules ∧
        lookupState e.rule_states n ≠ some (r.evaluate facts)) ∧
      (∀ p ∈ e.rules, lookupState e1.rule_states p.1 = some (p.2.evaluate facts)) ∧
      (∀ m, m ∉ e.rules.map Prod.fst →
        lookupState e1.rule_states m = lookupState e.rule_states m) ∧
      e1.evaluate_rules facts = some (e1, []) := by
  obtain ⟨st1, upd0, heq, hupd, hstates, houts⟩ :=
    evaluateRulesAux_spec facts e.rules e.rule_states hnd hcov
  intro e1 upd hres
  simp only [RuleEngine.evaluate_rules, heq] at hres
  injection hres with hres2
  obtain ⟨he1, hupd1⟩ := Prod.ext_iff.1 hres2
  obtain rfl : e1 = { e with rule_states := st1 } := he1.symm
  obtain rfl : upd = upd0 := hupd1.symm
  refine ⟨rfl, ?_, ?_, ?_, ?_⟩
  · intro n
    rw [hupd]
    constructor
    · intro hn
      obtain ⟨q, hq, hq1⟩ := List.mem_map.1 hn
      obtain ⟨hqm, hqc⟩ := List.mem_filter.1 hq
      obtain ⟨qn, qr⟩ := q
      have hq2 : qn = n := hq1
      subst hq2
      exact ⟨qr, hqm, by simpa using hqc⟩
    · rintro ⟨r, hr, hc⟩
      exact List.mem_map.2 ⟨(n, r), List.mem_filter.2 ⟨hr, by simpa using hc⟩, rfl⟩
  · intro q hq
    exact hstates q hq
  · intro m hm
    exact houts m hm
  · simp [RuleEngine.evaluate_rules, evaluateRulesAux_stable facts e.rules st1 hstates]

/-- Witness for C2 at the spec's Scenario A: one rule `IntMoreThan(score, 3)`,
score stored as 4 — the rule flips on the first pass and not on a repeated
pass. -/
theorem C2_evaluate_rules_flips_witness :
    RuleEngine.evaluate_rules
        ⟨[("R1", Rule.new "R1" [.intMoreThan "score" 3])], [("R1", false)]⟩
        [("score", Fact.int "score" 4)] =
      some (⟨[("R1", Rule.new "R1" [.intMoreThan "score" 3])], [("R1", true)]⟩, ["R1"]) ∧
    RuleEngine.evaluate_rules
        ⟨[("R1", Rule.new "R1" [.intMoreThan "score" 3])], [("R1", true)]⟩
        [("score", Fact.int "score" 4)] =
      some (⟨[("R1", Rule.new "R1" [.intMoreThan "score" 3])], [("R1", true)]⟩, []) := by
  refine ⟨by decide, ?_⟩
  exact (C2_evaluate_rules_flips
    ⟨[("R1", Rule.new "R1" [.intMoreThan "score" 3])], [("R1", false)]⟩
    [("score", Fact.int "score" 4)] (by decide) (by decide)
    ⟨[("R1", Rule.new "R1" [.intMoreThan "score" 3])], [("R1", true)]⟩ ["R1"]
    (by decide)).2.2.2.2

/-- C8.  Scenario C of the spec: the §4.5 grammar parses the given definition
text into a Story `S` with one beat `B` holding one rule `R` (single condition
`IntEquals(x, 1)`) and one effect `SetFact(Int("x", 1))`. -/
theorem C8_scenario_c_parse :
    SpecModel.parse_story
        "# Story: S\n## StoryBeat: B\n### Rule: R\n  IntEquals(x, 1)\n- Set Int x to 1" =
      some ⟨"S", [⟨"B", [⟨"R", [.intEquals "x" 1]⟩], [.setFact (.int "x" 1)], false⟩], 0⟩ := by
  decide

/-! Failure lemmas for the src/ nom parser. -/

theorem space1_after_space0 (l : List Char) :
    Nom.space1 (l.dropWhile Nom.isSpaceTab) = none := by
  induction l with
  | nil => rfl
  | cons c rest ih =>
    by_cases h : Nom.isSpaceTab c
    · simpa [List.dropWhile_cons, h] using ih
    · simp [List.dropWhile_cons, h, Nom.space1]

/-- Directly after `space0` has consumed all leading spaces and tabs, a parser
of the shape `many1(preceded(space1, p))` fails on the remainder, whatever `p`
is: nom's `space1` cannot match. -/
theorem many1_preceded_space1_after_space0 {α : Type} (p : Nom.P α) (l : List Char) :
    Nom.many1 (Nom.preceded Nom.space1 p) (l.dropWhile Nom.isSpaceTab) = none := by
  have h1 : Nom.preceded Nom.space1 p (l.dropWhile Nom.isSpaceTab) = none := by
    unfold Nom.preceded
    rw [space1_after_space0 l]
  unfold Nom.many1 Nom.manyAux
  rw [h1]

/-- C9.  The src/ `parse_story` never succeeds on any input: its
`parse_story_beat` fails on every input — the rule sub-parser is the
placeholder closure that consumes the whole remaining input, and the mandatory
effects parser `many1(preceded(space1, parse_effect))` fails on the empty
remainder (in fact the `many1(preceded(space1, ...))` shape already fails right
after `space0`) — and `parse_story`, whose beats parser has the same shape,
therefore also fails on every input. -/
theorem C9_parse_story_always_fails :
    (∀ input : Nom.Input, Nom.parse_story input = none) ∧
    (∀ input : Nom.Input, Nom.parse_story_beat input = none) ∧
    (∀ input : Nom.Input, Nom.placeholderRule input =
      some ([], Rule.new "rule_name" [])) ∧
    Nom.many1 (Nom.preceded Nom.space1 Nom.parse_effect) [] = none := by
  have hsb : ∀ input : Nom.Input, Nom.parse_story_beat input = none := by
    intro input
    unfold Nom.parse_story_beat
    split
    · rfl
    · simp only [Nom.space0, Nom.takeWhileP, many1_preceded_space1_after_space0]
  refine ⟨?_, hsb, fun _ => rfl, rfl⟩
  intro input
  unfold Nom.parse_story
  split
  · rfl
  · simp only [Nom.space0, Nom.takeWhileP, many1_preceded_space1_after_space0]

end Beats
